import Mathlib

/-!
Verification of the spelling-game word scheduler, scoring engine and round
state machine against its natural-language specification.

The definitions below are a shallow embedding of the TypeScript sources:

* `parseWordEntry`, `createWeightedShuffledList`, `calculatePriorityScore`,
  `getNextWord`, `initializeSessionWords`, `resetSession` embed the
  `WordManager` class (`src/words.ts` and the unnamed game module; the
  three-separator `parseWordEntry` follows the current `WordManager`).
* `calculateScore`, `calculateSpeedMultiplier`, `calculateComboMultiplier`,
  `getObstacleSpeedForLevel`, `saveWordResult` embed the scoring part of the
  `SpellingGame` class.
* `updateWordPerformance` embeds `SessionManager.updateWordPerformance`.
* `handleIncorrectAnswer`, `handleTimeout`, `nextRound` embed the round
  state machine, keeping the scheduling-relevant state (lives, combo,
  current word, scheduler state, narration and deadline flags) and eliding
  DOM rendering, audio, animation delays and wall-clock timestamps.
* `validateGameSpeed` embeds `src/gameSpeedUtils.ts`.

JS numbers are modelled as `ℚ` (timestamps as `ℤ`); every value the claims
touch is either integral or a small exact rational, so double rounding is
immaterial.  `Math.random()` outcomes are modelled by an oracle
`f : ℕ → ℕ` together with a call counter, which ranges over exactly the
outcomes the Fisher–Yates loop can draw.
-/

namespace Spelling

/-- Characters of a JS string (UTF-16 units; all words involved are BMP). -/
abbrev Str := List Char

/-- JS `Math.round`: round half toward positive infinity. -/
def jsRound (q : ℚ) : ℤ := Int.floor (q + 1/2)

/-- JS `String.prototype.trim` white-space test (core ASCII part; the words
file contains no exotic white space). -/
def isJsWhitespace (c : Char) : Bool :=
  c == ' ' || c == '\t' || c == '\n' || c == '\r' || c == '\x0b' || c == '\x0c'

/-- JS `String.prototype.trim`. -/
def trimStr (s : Str) : Str :=
  ((s.dropWhile isJsWhitespace).reverse.dropWhile isJsWhitespace).reverse

/-- JS `String.prototype.indexOf` for a pattern, `none` for `-1`. -/
def indexOfSub (pat : Str) : Str → Option Nat
  | [] => if pat.isPrefixOf ([] : Str) then some 0 else none
  | c :: t =>
    if pat.isPrefixOf (c :: t) then some 0
    else (indexOfSub pat t).map (· + 1)

/-- JS `str.toLowerCase()`; the word lists are ASCII, where `Char.toLower`
agrees with JS. -/
def lowerStr (s : Str) : Str := s.map Char.toLower

/-- `DESCRIPTION_SEPARATORS = [' - ', ' – ', ' — ']` (hyphen-minus, en dash,
em dash). -/
def DESCRIPTION_SEPARATORS : List Str :=
  [[' ', '-', ' '], [' ', '–', ' '], [' ', '—', ' ']]

/-- The separator-search loop of `WordManager.parseWordEntry`: it scans the
separators in order, keeping the smallest index found (with that
separator's length). -/
def findSeparator (entry : Str) : Option (Nat × Nat) :=
  DESCRIPTION_SEPARATORS.foldl
    (fun acc sep =>
      match indexOfSub sep entry with
      | none => acc
      | some i =>
        match acc with
        | none => some (i, sep.length)
        | some (bi, bl) => if i < bi then some (i, sep.length) else some (bi, bl))
    none

/-- Result of `parseWordEntry`. -/
structure ParsedWord where
  text : Str
  description : Option Str
  deriving DecidableEq, Repr

/-- `WordManager.parseWordEntry`. -/
def parseWordEntry (entry : Str) : ParsedWord :=
  match findSeparator entry with
  | none => ⟨entry, none⟩
  | some (i, len) =>
    let text := trimStr (entry.take i)
    let description := trimStr (entry.drop (i + len))
    if text = [] then ⟨entry, none⟩
    else ⟨text, if description = [] then none else some description⟩

/-- Stored per-word performance record. -/
structure WordPerformance where
  word : Str
  timesCorrectFirstTry : ℕ
  timesMistakes : ℕ
  timesTimeout : ℕ
  totalAttempts : ℕ
  lastSeen : ℤ
  deriving DecidableEq, Repr

/-- A `WordPerformanceMap`: JS object keyed by lowercased word. -/
abbrev WordPerformanceMap := List (Str × WordPerformance)

/-- `WordManager.calculatePriorityScore`, with `Date.now()` made an explicit
`now` argument. -/
def calculatePriorityScore (word : Str) (performanceMap : WordPerformanceMap)
    (now : ℤ) : ℚ :=
  match performanceMap.lookup (lowerStr word) with
  | none => 1000
  | some perf =>
    let score : ℚ := 100
    let score := score - perf.timesCorrectFirstTry * 30
    let score := score + perf.timesTimeout * 100
    let score := score + perf.timesMistakes * 80
    let totalAttempts := perf.totalAttempts
    let successRate : ℚ := perf.timesCorrectFirstTry / max (totalAttempts : ℚ) 1
    let score := if successRate < 1/2 ∧ 2 ≤ totalAttempts then score + 50 else score
    let daysSinceLastSeen : ℚ := ((now - perf.lastSeen : ℤ) : ℚ) / (1000 * 60 * 60 * 24)
    let score := if 1 < daysSinceLastSeen then score + min (daysSinceLastSeen * 3) 15 else score
    max score 0

/-- The priority-score formula exactly as the specification words it, for
comparison with `calculatePriorityScore`. -/
def priorityScoreSpec (word : Str) (performanceMap : WordPerformanceMap)
    (now : ℤ) : ℚ :=
  match performanceMap.lookup (lowerStr word) with
  | none => 1000
  | some perf =>
    let days : ℚ := ((now - perf.lastSeen : ℤ) : ℚ) / 86400000
    max 0 (100 - 30 * perf.timesCorrectFirstTry + 100 * perf.timesTimeout
      + 80 * perf.timesMistakes
      + (if (perf.timesCorrectFirstTry : ℚ) / max (perf.totalAttempts : ℚ) 1 < 1/2
            ∧ 2 ≤ perf.totalAttempts then 50 else 0)
      + (if 1 < days then min 15 (3 * days) else 0))

/-- The destructuring swap `[a[i], a[j]] = [a[j], a[i]]` of `shuffleArray`
(identity out of bounds; the loop only uses in-bounds indices). -/
def jsSwap (l : List α) (i j : ℕ) : List α :=
  if h : i < l.length ∧ j < l.length then
    (l.set i (l.get ⟨j, h.2⟩)).set j (l.get ⟨i, h.1⟩)
  else l

/-- Loop body of `WordManager.shuffleArray` (Fisher–Yates): counts down from
`i`, drawing `Math.floor(Math.random() * (i + 1))` from the oracle as
`f k % (i + 1)` and threading the call counter `k`. -/
def shuffleAux (f : ℕ → ℕ) : ℕ → List α → ℕ → List α × ℕ
  | 0, l, k => (l, k)
  | i + 1, l, k => shuffleAux f i (jsSwap l (i + 1) (f k % (i + 2))) (k + 1)

/-- `WordManager.shuffleArray` on a list, for one oracle outcome. -/
def shuffleArray (f : ℕ → ℕ) (l : List α) (k : ℕ) : List α × ℕ :=
  shuffleAux f (l.length - 1) l k

/-- The bucket slicing `wordScores.slice(i, i + bucketSize)` of
`createWeightedShuffledList`, `bucketSize = 10`. -/
def chunks10 : List α → List (List α)
  | [] => []
  | a :: t => (a :: t).take 10 :: chunks10 (t.drop 9)
termination_by l => l.length
decreasing_by simp only [List.length_cons, List.length_drop]; omega

/-- Per-bucket shuffling loop of `createWeightedShuffledList`, threading the
random-call counter across buckets. -/
def shuffleChunks (f : ℕ → ℕ) : List (List α) → ℕ → List (List α) × ℕ
  | [], k => ([], k)
  | b :: bs, k =>
    let p := shuffleArray f b k
    let q := shuffleChunks f bs p.2
    (p.1 :: q.1, q.2)

/-- The scored entries `wordScores` of `createWeightedShuffledList` (entry
kept whole, score computed on the parsed text). -/
def scoredWords (wordList : List Str) (performanceMap : WordPerformanceMap)
    (now : ℤ) : List (Str × ℚ) :=
  wordList.map (fun wordEntry =>
    (wordEntry, calculatePriorityScore (parseWordEntry wordEntry).text performanceMap now))

/-- `wordScores.sort((a, b) => b.score - a.score)`: a stable descending sort
by score. -/
def sortedWordScores (wordList : List Str) (performanceMap : WordPerformanceMap)
    (now : ℤ) : List (Str × ℚ) :=
  (scoredWords wordList performanceMap now).mergeSort (fun a b => decide (b.2 ≤ a.2))

/-- Difficulty tiers. -/
inductive Difficulty where
  | easy | medium | hard
  deriving DecidableEq, Repr

/-- The configured word lists (`this.words`). -/
structure WordConfig where
  easy : List Str
  medium : List Str
  hard : List Str
  deriving DecidableEq, Repr

/-- `this.words[difficulty]`. -/
def wordsFor (cfg : WordConfig) : Difficulty → List Str
  | .easy => cfg.easy
  | .medium => cfg.medium
  | .hard => cfg.hard

/-- `WordManager.createWeightedShuffledList`: score, sort descending, chunk
into buckets of 10 and shuffle each bucket, then concatenate the bucket
entries. -/
def createWeightedShuffledList (cfg : WordConfig) (difficulty : Difficulty)
    (performanceMap : WordPerformanceMap) (f : ℕ → ℕ) (k : ℕ) (now : ℤ) :
    List Str × ℕ :=
  let sorted := sortedWordScores (wordsFor cfg difficulty) performanceMap now
  let p := shuffleChunks f (chunks10 sorted) k
  ((p.1.map (fun bucket => bucket.map Prod.fst)).flatten, p.2)

/-- Scheduler state: the two session maps of `WordManager`. -/
structure WMState where
  sessionWordLists : Difficulty → Option (List Str)
  sessionWordIndices : Difficulty → Option ℕ

/-- A parsed word served to the game. -/
structure Word where
  text : Str
  difficulty : Difficulty
  description : Option Str
  deriving DecidableEq, Repr

/-- Names used in the `getNextWord` error message. -/
def difficultyName : Difficulty → Str
  | .easy => ['e', 'a', 's', 'y']
  | .medium => ['m', 'e', 'd', 'i', 'u', 'm']
  | .hard => ['h', 'a', 'r', 'd']

/-- The message of the error thrown by `getNextWord`. -/
def noWordsMsg (difficulty : Difficulty) : Str :=
  ("No words available for difficulty: ").toList ++ difficultyName difficulty

/-- `WordManager.initializeSessionWords`: builds one shuffled list per
difficulty and resets every cursor to 0. -/
def initializeSessionWords (cfg : WordConfig) (performanceMap : WordPerformanceMap)
    (f : ℕ → ℕ) (k : ℕ) (now : ℤ) : WMState :=
  let pe := createWeightedShuffledList cfg .easy performanceMap f k now
  let pm := createWeightedShuffledList cfg .medium performanceMap f pe.2 now
  let ph := createWeightedShuffledList cfg .hard performanceMap f pm.2 now
  { sessionWordLists := fun d =>
      match d with
      | .easy => some pe.1
      | .medium => some pm.1
      | .hard => some ph.1
    sessionWordIndices := fun _ => some 0 }

/-- `WordManager.resetSession`: clears both session maps. -/
def resetSession (_s : WMState) : WMState :=
  { sessionWordLists := fun _ => none, sessionWordIndices := fun _ => none }

/-- `WordManager.getNextWord`: throws when no session list is available (or
it is empty), otherwise serves the entry at the cursor and advances it,
wrapping to 0 when the list is exhausted. -/
def getNextWord (s : WMState) (difficulty : Difficulty) :
    Except Str (Word × WMState) :=
  let index := (s.sessionWordIndices difficulty).getD 0
  match s.sessionWordLists difficulty with
  | none => .error (noWordsMsg difficulty)
  | some wordList =>
    if wordList.length = 0 then .error (noWordsMsg difficulty)
    else
      let index := if wordList.length ≤ index then 0 else index
      let wordEntry := wordList.getD index []
      let s2 := { s with sessionWordIndices := fun d =>
        if d = difficulty then some (index + 1) else s.sessionWordIndices d }
      let parsed := parseWordEntry wordEntry
      .ok (⟨parsed.text, difficulty, parsed.description⟩, s2)

/-- Speed tiers of the scoring engine. -/
inductive SpeedTier where
  | lightning | fast | good | normal
  deriving DecidableEq, Repr

/-- `SpellingGame.calculateScore`: base score by attempt count. -/
def calculateScore (attempts : ℕ) : ℕ :=
  if attempts = 1 then 20
  else if attempts = 2 then 10
  else if attempts = 3 then 5
  else 2

/-- `SpellingGame.calculateSpeedMultiplier`. -/
def calculateSpeedMultiplier (responseTime totalTime : ℚ) : ℚ × SpeedTier :=
  let timePercentage := responseTime / totalTime * 100
  if timePercentage < 30 then (2, .lightning)
  else if timePercentage < 50 then (3/2, .fast)
  else if timePercentage < 70 then (5/4, .good)
  else (1, .normal)

/-- `SpellingGame.calculateComboMultiplier`. -/
def calculateComboMultiplier (comboCount : ℕ) : ℚ :=
  if 5 ≤ comboCount then 3/2
  else if 4 ≤ comboCount then 13/10
  else if 3 ≤ comboCount then 6/5
  else if 2 ≤ comboCount then 11/10
  else 1

/-- `SpellingGame.getObstacleSpeedForLevel`:
`max(2500, 8000 - 400 * (level - 1))` milliseconds. -/
def getObstacleSpeedForLevel (level : ℤ) : ℤ :=
  max 2500 (8000 - (level - 1) * 400)

/-- One typed attempt at the current word. -/
structure WordAttempt where
  spelling : Str
  correct : Bool
  timestamp : ℤ
  deriving DecidableEq, Repr

/-- The state read by `SpellingGame.saveWordResult`. -/
structure SaveWordInput where
  timedOut : Bool
  attempts : List WordAttempt
  answerSubmitTime : ℤ
  obstacleStartTime : ℤ
  level : ℤ
  comboCount : ℕ
  deriving Repr

/-- The fields of the recorded `WordResult` the scoring claims are about. -/
structure WordResultRec where
  scoreEarned : ℤ
  speedMultiplier : ℚ
  speedTier : SpeedTier
  comboMultiplier : ℚ
  comboCount : ℕ
  responseTime : ℚ
  timedOut : Bool
  deriving DecidableEq, Repr

/-- `attempts[attempts.length - 1]?.correct`, with JS truthiness (an empty
attempt list reads as false). -/
def lastAttemptCorrect (inp : SaveWordInput) : Bool :=
  ((inp.attempts.getLast?).map WordAttempt.correct).getD false

/-- The deadline `obstacleReachTime = speed * 0.6` used by the round. -/
def obstacleReachTime (level : ℤ) : ℚ :=
  (getObstacleSpeedForLevel level : ℚ) * (6/10)

/-- The response time recorded by `saveWordResult` (full deadline when no
answer was ever submitted). -/
def savedResponseTime (inp : SaveWordInput) : ℚ :=
  if 0 < inp.answerSubmitTime
  then ((inp.answerSubmitTime - inp.obstacleStartTime : ℤ) : ℚ)
  else obstacleReachTime inp.level

/-- `SpellingGame.saveWordResult`: computes the recorded score and
multiplier fields of the round's `WordResult`. -/
def saveWordResult (inp : SaveWordInput) : WordResultRec :=
  let responseTime := savedResponseTime inp
  if inp.timedOut then
    { scoreEarned := 0, speedMultiplier := 1, speedTier := .normal,
      comboMultiplier := 1, comboCount := 0, responseTime := responseTime,
      timedOut := true }
  else
    let baseScore := calculateScore inp.attempts.length
    let isFirstTryCorrect := inp.attempts.length = 1 ∧ lastAttemptCorrect inp
    if lastAttemptCorrect inp ∧ 0 < inp.answerSubmitTime then
      let speedInfo := calculateSpeedMultiplier responseTime (obstacleReachTime inp.level)
      let comboCount := if isFirstTryCorrect then inp.comboCount else 0
      let comboMultiplier :=
        if isFirstTryCorrect then calculateComboMultiplier inp.comboCount else 1
      let totalMultiplier := speedInfo.1 * comboMultiplier
      { scoreEarned := jsRound ((baseScore : ℚ) * totalMultiplier),
        speedMultiplier := speedInfo.1, speedTier := speedInfo.2,
        comboMultiplier := comboMultiplier, comboCount := comboCount,
        responseTime := responseTime, timedOut := false }
    else
      { scoreEarned := (baseScore : ℤ), speedMultiplier := 1, speedTier := .normal,
        comboMultiplier := 1, comboCount := 0, responseTime := responseTime,
        timedOut := false }

/-- The part of a `WordResult` that `SessionManager.updateWordPerformance`
reads. -/
structure WordResultPerf where
  word : Str
  timedOut : Bool
  attempts : List WordAttempt
  deriving Repr

/-- The fresh record `updateWordPerformance` creates for an unseen word. -/
def freshPerformance (word : Str) : WordPerformance :=
  { word := word, timesCorrectFirstTry := 0, timesMistakes := 0,
    timesTimeout := 0, totalAttempts := 0, lastSeen := 0 }

/-- `wordResult.attempts.length === 1 && wordResult.attempts[0].correct`. -/
def firstAttemptCorrect (wr : WordResultPerf) : Bool :=
  wr.attempts.length == 1 && ((wr.attempts.head?).map WordAttempt.correct).getD false

/-- The in-place mutation of one performance record performed by
`SessionManager.updateWordPerformance`, with `Date.now()` explicit. -/
def updatedRecord (existing : WordPerformance) (wr : WordResultPerf) (now : ℤ) :
    WordPerformance :=
  let e := { existing with totalAttempts := existing.totalAttempts + 1, lastSeen := now }
  if wr.timedOut then { e with timesTimeout := e.timesTimeout + 1 }
  else if firstAttemptCorrect wr then
    { e with timesCorrectFirstTry := e.timesCorrectFirstTry + 1 }
  else { e with timesMistakes := e.timesMistakes + 1 }

/-- JS object property write `playerPerformance[word] = existing`. -/
def setKey (pm : WordPerformanceMap) (key : Str) (v : WordPerformance) :
    WordPerformanceMap :=
  match pm with
  | [] => [(key, v)]
  | (k2, v2) :: t => if k2 = key then (key, v) :: t else (k2, v2) :: setKey t key v

/-- `SessionManager.updateWordPerformance` on one player's map. -/
def updateWordPerformance (pm : WordPerformanceMap) (wr : WordResultPerf)
    (now : ℤ) : WordPerformanceMap :=
  let word := lowerStr wr.word
  let existing := (pm.lookup word).getD (freshPerformance word)
  setKey pm word (updatedRecord existing wr now)

/-- The attempt-count invariant of the data model. -/
def perfInvariant (p : WordPerformance) : Prop :=
  p.totalAttempts = p.timesCorrectFirstTry + p.timesMistakes + p.timesTimeout

/-- Game phases of the round state machine. -/
inductive GamePhase where
  | idle | speaking | waitingInput | validating | jumping | crashing
  | levelUp | gameOverPhase
  deriving DecidableEq, Repr

/-- The round-state-machine state the frame-effect claims are about. -/
structure GState where
  lives : ℤ
  comboCount : ℕ
  level : ℤ
  difficulty : Difficulty
  currentWord : Option Word
  wm : WMState
  phase : GamePhase
  isGameOver : Bool
  narratedWord : Option Str
  deadlineArmed : Bool

/-- `SpellingGame.getDifficultyForLevel`. -/
def getDifficultyForLevel (level : ℤ) : Difficulty :=
  if level ≤ 3 then .easy else if level ≤ 6 then .medium else .hard

/-- `SpellingGame.gameOver`: ends the session. -/
def gameOverStep (s : GState) : GState :=
  { s with isGameOver := true, phase := .gameOverPhase, deadlineArmed := false }

/-- `SpellingGame.nextRound`: draws the next scheduled word, narrates it and
re-arms the deadline (`none` when the scheduler throws). -/
def nextRound (s : GState) : Option GState :=
  if s.isGameOver then some s
  else
    let d := getDifficultyForLevel s.level
    match getNextWord s.wm d with
    | .error _ => none
    | .ok (w, wm2) =>
      some { s with
        difficulty := d
        currentWord := some w
        wm := wm2
        phase := .waitingInput
        narratedWord := some w.text
        deadlineArmed := true }

/-- `SpellingGame.handleIncorrectAnswer`: combo resets, one life is lost;
with lives left the same word is re-narrated and the deadline re-armed
(the scheduler is not consulted), otherwise the game ends. -/
def handleIncorrectAnswer (s : GState) (correctAnswer : Str) : GState :=
  let s1 := { s with phase := .crashing, comboCount := 0 }
  let s2 := { s1 with lives := s1.lives - 1 }
  if s2.lives ≤ 0 then gameOverStep s2
  else { s2 with
    narratedWord := some correctAnswer
    deadlineArmed := true
    phase := .waitingInput }

/-- `SpellingGame.handleTimeout`: combo resets, the pending deadline is
cleared, one life is lost; with lives left the machine advances to the next
scheduled word, otherwise the game ends. -/
def handleTimeout (s : GState) : Option GState :=
  let s1 := { s with phase := .crashing, comboCount := 0, deadlineArmed := false }
  let s2 := { s1 with lives := s1.lives - 1 }
  if s2.lives ≤ 0 then some (gameOverStep s2)
  else nextRound s2

/-- A JS number that may be NaN. -/
inductive JsNum where
  | nan : JsNum
  | num : ℚ → JsNum
  deriving DecidableEq, Repr

/-- `DEFAULT_GAME_SPEED`. -/
def DEFAULT_GAME_SPEED : ℚ := 1

/-- `MIN_GAME_SPEED`. -/
def MIN_GAME_SPEED : ℚ := 1/2

/-- `MAX_GAME_SPEED`. -/
def MAX_GAME_SPEED : ℚ := 3/2

/-- `validateGameSpeed` from `gameSpeedUtils.ts`; the argument is
`number | undefined` with `none` for `undefined`. -/
def validateGameSpeed : Option JsNum → ℚ
  | none => DEFAULT_GAME_SPEED
  | some .nan => DEFAULT_GAME_SPEED
  | some (.num speed) => max MIN_GAME_SPEED (min MAX_GAME_SPEED speed)

/-- A concrete scheduler state (one session, two words, cursor at 0) used
to instantiate theorems at concrete inputs. -/
def wmEx : WMState :=
  { sessionWordLists := fun _ => some [['d', 'o', 'g'], ['c', 'a', 't']]
    sessionWordIndices := fun _ => some 0 }

/-- A concrete mid-round game state (2 lives, level 1) used to instantiate
theorems at concrete inputs. -/
def gsEx : GState :=
  { lives := 2, comboCount := 3, level := 1, difficulty := .easy
    currentWord := some ⟨['c', 'a', 't'], .easy, none⟩, wm := wmEx
    phase := .waitingInput, isGameOver := false, narratedWord := none
    deadlineArmed := true }

/-- Claim C10: `validateGameSpeed` always lands in `[0.5, 1.5]`: it returns
`1.0` on `undefined` or `NaN`, returns an in-range input unchanged, and
otherwise clamps to the nearer bound. -/
theorem validateGameSpeed_clamps :
    (∀ x, MIN_GAME_SPEED ≤ validateGameSpeed x ∧ validateGameSpeed x ≤ MAX_GAME_SPEED) ∧
    validateGameSpeed none = DEFAULT_GAME_SPEED ∧
    validateGameSpeed (some .nan) = DEFAULT_GAME_SPEED ∧
    (∀ q, MIN_GAME_SPEED ≤ q → q ≤ MAX_GAME_SPEED → validateGameSpeed (some (.num q)) = q) ∧
    (∀ q, q < MIN_GAME_SPEED → validateGameSpeed (some (.num q)) = MIN_GAME_SPEED) ∧
    (∀ q, MAX_GAME_SPEED < q → validateGameSpeed (some (.num q)) = MAX_GAME_SPEED) := by
  refine ⟨?_, rfl, rfl, ?_, ?_, ?_⟩
  · rintro (_ | (_ | q))
    · constructor <;> norm_num [validateGameSpeed, MIN_GAME_SPEED, MAX_GAME_SPEED, DEFAULT_GAME_SPEED]
    · constructor <;> norm_num [validateGameSpeed, MIN_GAME_SPEED, MAX_GAME_SPEED, DEFAULT_GAME_SPEED]
    · refine ⟨le_max_left _ _, max_le ?_ (min_le_left _ _)⟩
      norm_num [MIN_GAME_SPEED, MAX_GAME_SPEED]
  · intro q h1 h2
    simp only [validateGameSpeed]
    rw [min_eq_right h2, max_eq_right h1]
  · intro q h
    simp only [validateGameSpeed]
    rw [min_eq_right (le_of_lt (lt_of_lt_of_le h (by norm_num [MIN_GAME_SPEED, MAX_GAME_SPEED]))),
      max_eq_left (le_of_lt h)]
  · intro q h
    simp only [validateGameSpeed]
    rw [min_eq_left (le_of_lt h), max_eq_right (by norm_num [MIN_GAME_SPEED, MAX_GAME_SPEED])]

/-- Witness for C10: the clamp theorem applied at an in-range, a too-small
and a too-large input. -/
theorem validateGameSpeed_clamps_witness :
    validateGameSpeed (some (.num 1)) = 1 ∧
    validateGameSpeed (some (.num 0)) = MIN_GAME_SPEED ∧
    validateGameSpeed (some (.num 2)) = MAX_GAME_SPEED :=
  ⟨validateGameSpeed_clamps.2.2.2.1 1
      (by norm_num [MIN_GAME_SPEED]) (by norm_num [MAX_GAME_SPEED]),
   validateGameSpeed_clamps.2.2.2.2.1 0 (by norm_num [MIN_GAME_SPEED]),
   validateGameSpeed_clamps.2.2.2.2.2 2 (by norm_num [MAX_GAME_SPEED])⟩

/-- Counterexample for C8: the claim asserts
`speedMultiplier(3000,5000) = 1.5`, but 3000/5000 uses 60% of the deadline,
which the code (by the claim's own tier rule) resolves to the good tier
with multiplier 1.25. -/
theorem calculateSpeedMultiplier_at_3000_5000 :
    calculateSpeedMultiplier 3000 5000 = (5/4, SpeedTier.good) ∧
    ((5 : ℚ)/4, SpeedTier.good) ≠ ((3 : ℚ)/2, SpeedTier.fast) := by
  constructor
  · norm_num [calculateSpeedMultiplier]
  · intro hcon
    exact SpeedTier.noConfusion (congrArg Prod.snd hcon)

/-- Claim C8 (amended: the example `speedMultiplier(3000,5000)` equals 1.25
in tier good, not 1.5): the tier characterization of
`calculateSpeedMultiplier`, the remaining examples, and the boundary cases
30%/50%/70% resolving to the next lower tier. -/
theorem calculateSpeedMultiplier_tiers (responseTime totalTime : ℚ)
    (h : 0 < totalTime) :
    (calculateSpeedMultiplier responseTime totalTime = (2, .lightning) ↔
      responseTime / totalTime * 100 < 30) ∧
    (calculateSpeedMultiplier responseTime totalTime = (3/2, .fast) ↔
      30 ≤ responseTime / totalTime * 100 ∧ responseTime / totalTime * 100 < 50) ∧
    (calculateSpeedMultiplier responseTime totalTime = (5/4, .good) ↔
      50 ≤ responseTime / totalTime * 100 ∧ responseTime / totalTime * 100 < 70) ∧
    (calculateSpeedMultiplier responseTime totalTime = (1, .normal) ↔
      70 ≤ responseTime / totalTime * 100) ∧
    calculateSpeedMultiplier 1400 5000 = (2, .lightning) ∧
    calculateSpeedMultiplier 3000 5000 = (5/4, .good) ∧
    calculateSpeedMultiplier 4900 5000 = (1, .normal) ∧
    calculateSpeedMultiplier 1500 5000 = (3/2, .fast) ∧
    calculateSpeedMultiplier 2500 5000 = (5/4, .good) ∧
    calculateSpeedMultiplier 3500 5000 = (1, .normal) := by
  clear h
  refine ⟨?_, ?_, ?_, ?_, by norm_num [calculateSpeedMultiplier],
    by norm_num [calculateSpeedMultiplier], by norm_num [calculateSpeedMultiplier],
    by norm_num [calculateSpeedMultiplier], by norm_num [calculateSpeedMultiplier],
    by norm_num [calculateSpeedMultiplier]⟩ <;>
  · simp only [calculateSpeedMultiplier]
    split_ifs with h1 h2 h3 <;> simp [Prod.ext_iff] <;>
      first
        | linarith
        | (constructor <;> linarith)
        | (intro hh; linarith)

/-- Witness for C8: the tier theorem applied at deadline 5000 (a positive
deadline), extracting the lightning example. -/
theorem calculateSpeedMultiplier_tiers_witness :
    calculateSpeedMultiplier 1400 5000 = (2, .lightning) :=
  (calculateSpeedMultiplier_tiers 1400 5000 (by norm_num)).2.2.2.2.1

/-- Counterexample for C2: a round whose single (hence final) attempt is
incorrect is recorded by `saveWordResult` with `scoreEarned = baseScore`
(here 20 for one attempt), not 0 as the claim's "earns nothing" states. -/
theorem saveWordResult_incorrect_final_scores_base :
    (saveWordResult ⟨false, [⟨['c', 't', 'a'], false, 1000⟩], 1000, 500, 1, 0⟩).scoreEarned = 20 ∧
    (20 : ℤ) ≠ 0 := by
  constructor
  · rfl
  · decide

/-- Claim C2 (amended: a round whose final attempt is incorrect is recorded
with the plain base score, with no multipliers — not 0): a timed-out round
records score 0 regardless of any multiplier state; a round whose final
attempt is correct (with a submitted answer) records
`round(baseScore * speedMultiplier * comboMultiplier)`, the combo factor
applying only to first-try answers; base score is 20/10/5/2 by attempts;
and the concrete first-try lightning round at combo 5 records
`round(20 * 2.0 * 1.5) = 60`. -/
theorem saveWordResult_scoring (inp : SaveWordInput) :
    (inp.timedOut = true → (saveWordResult inp).scoreEarned = 0) ∧
    (inp.timedOut = false → lastAttemptCorrect inp = true → 0 < inp.answerSubmitTime →
      (saveWordResult inp).scoreEarned =
        jsRound ((calculateScore inp.attempts.length : ℚ) *
          ((calculateSpeedMultiplier (savedResponseTime inp) (obstacleReachTime inp.level)).1 *
            (if inp.attempts.length = 1 then calculateComboMultiplier inp.comboCount else 1)))) ∧
    (inp.timedOut = false → ¬(lastAttemptCorrect inp = true ∧ 0 < inp.answerSubmitTime) →
      (saveWordResult inp).scoreEarned = (calculateScore inp.attempts.length : ℤ)) ∧
    calculateScore 1 = 20 ∧ calculateScore 2 = 10 ∧ calculateScore 3 = 5 ∧
    (∀ n, 4 ≤ n → calculateScore n = 2) ∧
    saveWordResult ⟨false, [⟨['c', 'a', 't'], true, 2000⟩], 2000, 1000, 1, 5⟩ =
      ⟨60, 2, .lightning, 3/2, 5, 1000, false⟩ := by
  refine ⟨?_, ?_, ?_, rfl, rfl, rfl, ?_, ?_⟩
  · intro ht
    simp [saveWordResult, ht]
  · intro ht hlast hsub
    by_cases hlen : inp.attempts.length = 1 <;>
      simp [saveWordResult, ht, hlast, hsub, hlen]
  · intro ht hnot
    simp only [saveWordResult, ht, Bool.false_eq_true, if_false]
    rw [if_neg hnot]
  · intro n hn
    simp only [calculateScore]
    split_ifs with a b c <;> omega
  · norm_num [saveWordResult, lastAttemptCorrect, savedResponseTime, obstacleReachTime,
      getObstacleSpeedForLevel, calculateSpeedMultiplier, calculateScore,
      calculateComboMultiplier, jsRound, WordResultRec.mk.injEq]

/-- Witness for C2: the scoring theorem applied to a first-try correct
lightning round (timed out false, last attempt correct, answer submitted). -/
theorem saveWordResult_scoring_witness :
    (saveWordResult ⟨false, [⟨['c', 'a', 't'], true, 2000⟩], 2000, 1000, 1, 5⟩).scoreEarned =
      jsRound ((calculateScore 1 : ℚ) *
        ((calculateSpeedMultiplier
            (savedResponseTime ⟨false, [⟨['c', 'a', 't'], true, 2000⟩], 2000, 1000, 1, 5⟩)
            (obstacleReachTime 1)).1 *
          (if (1 : ℕ) = 1 then calculateComboMultiplier 5 else 1))) :=
  (saveWordResult_scoring ⟨false, [⟨['c', 'a', 't'], true, 2000⟩], 2000, 1000, 1, 5⟩).2.1
    rfl rfl (by decide)

/-- A successful association-list lookup witnesses membership. -/
theorem lookup_mem :
    ∀ {l : WordPerformanceMap} {k : Str} {v : WordPerformance},
      l.lookup k = some v → (k, v) ∈ l := by
  intro l
  induction l with
  | nil => intro k v h; simp at h
  | cons p t ih =>
    intro k v h
    obtain ⟨pk, pv⟩ := p
    rw [List.lookup_cons] at h
    by_cases hk : k == pk
    · rw [hk] at h
      have hkeq : k = pk := by simpa using hk
      injection h with h2
      subst hkeq h2
      exact List.mem_cons_self _ _
    · rw [Bool.of_not_eq_true hk] at h
      exact List.mem_cons_of_mem _ (ih h)

/-- Every pair of the map after a `setKey` write is an old pair or the
written one. -/
theorem mem_setKey {pm : WordPerformanceMap} {k : Str} {v : WordPerformance}
    {e : Str × WordPerformance} :
    e ∈ setKey pm k v → e ∈ pm ∨ e = (k, v) := by
  induction pm with
  | nil => intro h; simp [setKey] at h; right; exact h
  | cons p t ih =>
    intro h
    simp only [setKey] at h
    split_ifs at h with hp
    · rcases List.mem_cons.1 h with h1 | h1
      · right; exact h1
      · left; exact List.mem_cons_of_mem _ h1
    · rcases List.mem_cons.1 h with h1 | h1
      · left; exact List.mem_cons.2 (Or.inl h1)
      · rcases ih h1 with h2 | h2
        · left; exact List.mem_cons_of_mem _ h2
        · right; exact h2

/-- Claim C4: every round resolution increments exactly one of the three
outcome buckets (timeout, else first-try correct, else mistakes),
increments `totalAttempts` by one and bumps `lastSeen`, so the invariant
`totalAttempts = timesCorrectFirstTry + timesMistakes + timesTimeout` is
preserved, starting from a fresh record or any record satisfying it —
hence every stored record keeps satisfying it after an update. -/
theorem updateWordPerformance_invariant (pm : WordPerformanceMap)
    (wr : WordResultPerf) (now : ℤ) :
    (∀ existing : WordPerformance,
      (perfInvariant existing → perfInvariant (updatedRecord existing wr now)) ∧
      (updatedRecord existing wr now).totalAttempts = existing.totalAttempts + 1 ∧
      (updatedRecord existing wr now).lastSeen = now ∧
      (wr.timedOut = true →
        (updatedRecord existing wr now).timesTimeout = existing.timesTimeout + 1 ∧
        (updatedRecord existing wr now).timesCorrectFirstTry = existing.timesCorrectFirstTry ∧
        (updatedRecord existing wr now).timesMistakes = existing.timesMistakes) ∧
      (wr.timedOut = false → firstAttemptCorrect wr = true →
        (updatedRecord existing wr now).timesCorrectFirstTry = existing.timesCorrectFirstTry + 1 ∧
        (updatedRecord existing wr now).timesTimeout = existing.timesTimeout ∧
        (updatedRecord existing wr now).timesMistakes = existing.timesMistakes) ∧
      (wr.timedOut = false → firstAttemptCorrect wr = false →
        (updatedRecord existing wr now).timesMistakes = existing.timesMistakes + 1 ∧
        (updatedRecord existing wr now).timesTimeout = existing.timesTimeout ∧
        (updatedRecord existing wr now).timesCorrectFirstTry = existing.timesCorrectFirstTry)) ∧
    ((∀ e ∈ pm, perfInvariant e.2) →
      ∀ e ∈ updateWordPerformance pm wr now, perfInvariant e.2) := by
  have hrec : ∀ existing : WordPerformance, perfInvariant existing →
      perfInvariant (updatedRecord existing wr now) := by
    intro ex hex
    unfold updatedRecord perfInvariant at *
    split_ifs <;> simp <;> omega
  constructor
  · intro ex
    refine ⟨hrec ex, ?_⟩
    unfold updatedRecord
    refine ⟨?_, ?_, ?_, ?_, ?_⟩ <;> intros <;> split_ifs <;> simp_all
  · intro hall e he
    unfold updateWordPerformance at he
    rcases mem_setKey he with h1 | h1
    · exact hall e h1
    · subst h1
      apply hrec
      cases hl : pm.lookup (lowerStr wr.word) with
      | none => simp [hl, perfInvariant, freshPerformance]
      | some p => simpa [hl] using hall _ (lookup_mem hl)

/-- Witness for C4: the invariant-preservation theorem applied to a fresh
record and a timed-out round. -/
theorem updateWordPerformance_invariant_witness :
    perfInvariant (updatedRecord (freshPerformance ['c', 'a', 't'])
      ⟨['c', 'a', 't'], true, []⟩ 5) :=
  ((updateWordPerformance_invariant [] ⟨['c', 'a', 't'], true, []⟩ 5).1
    (freshPerformance ['c', 'a', 't'])).1 rfl

/-- Claim C5: an incorrect typed answer with lives remaining replays the
same word (current word and scheduler state untouched, the word re-narrated
and the deadline re-armed), a timeout instead advances the scheduler to the
next word (or ends the game when lives reach 0), and both outcomes cost
exactly one life. -/
theorem retry_vs_timeout (s : GState) (ca : Str) :
    (handleIncorrectAnswer s ca).lives = s.lives - 1 ∧
    (0 < s.lives - 1 →
      (handleIncorrectAnswer s ca).currentWord = s.currentWord ∧
      (handleIncorrectAnswer s ca).wm = s.wm ∧
      (handleIncorrectAnswer s ca).narratedWord = some ca ∧
      (handleIncorrectAnswer s ca).deadlineArmed = true ∧
      (handleIncorrectAnswer s ca).isGameOver = s.isGameOver) ∧
    (s.lives - 1 ≤ 0 →
      (handleIncorrectAnswer s ca).isGameOver = true ∧
      (handleIncorrectAnswer s ca).wm = s.wm) ∧
    (s.lives - 1 ≤ 0 → ∃ s2, handleTimeout s = some s2 ∧
      s2.lives = s.lives - 1 ∧ s2.isGameOver = true) ∧
    (0 < s.lives - 1 → s.isGameOver = false →
      ∀ w wm2, getNextWord s.wm (getDifficultyForLevel s.level) = .ok (w, wm2) →
        ∃ s2, handleTimeout s = some s2 ∧ s2.lives = s.lives - 1 ∧ s2.wm = wm2 ∧
          s2.currentWord = some w ∧ s2.isGameOver = false ∧
          s2.narratedWord = some w.text ∧ s2.deadlineArmed = true) := by
  refine ⟨?_, ?_, ?_, ?_, ?_⟩
  · simp only [handleIncorrectAnswer]
    split_ifs <;> simp [gameOverStep]
  · intro hl
    simp only [handleIncorrectAnswer]
    rw [if_neg (by omega)]
    exact ⟨rfl, rfl, rfl, rfl, rfl⟩
  · intro hl
    simp only [handleIncorrectAnswer]
    rw [if_pos (by omega)]
    simp [gameOverStep]
  · intro hl
    simp only [handleTimeout]
    rw [if_pos (by omega)]
    exact ⟨_, rfl, by simp [gameOverStep], by simp [gameOverStep]⟩
  · intro hl hgo w wm2 hnext
    simp only [handleTimeout]
    rw [if_neg (by omega)]
    simp only [nextRound, hgo, Bool.false_eq_true, if_false, hnext]
    exact ⟨_, rfl, rfl, rfl, rfl, rfl, rfl, rfl⟩

/-- Witness for C5: the retry/timeout theorem applied to a concrete state
with 2 lives; the incorrect-answer branch leaves the scheduler and current
word alone, and the timeout branch produces a successor state. -/
theorem retry_vs_timeout_witness :
    ((handleIncorrectAnswer gsEx ['c', 'a', 't']).currentWord = gsEx.currentWord ∧
      (handleIncorrectAnswer gsEx ['c', 'a', 't']).wm = gsEx.wm ∧
      (handleIncorrectAnswer gsEx ['c', 'a', 't']).narratedWord = some ['c', 'a', 't'] ∧
      (handleIncorrectAnswer gsEx ['c', 'a', 't']).deadlineArmed = true ∧
      (handleIncorrectAnswer gsEx ['c', 'a', 't']).isGameOver = gsEx.isGameOver) ∧
    handleTimeout gsEx ≠ none := by
  constructor
  · exact (retry_vs_timeout gsEx ['c', 'a', 't']).2.1 (by decide)
  · obtain ⟨s2, hs, -⟩ :=
      (retry_vs_timeout gsEx ['c', 'a', 't']).2.2.2.2 (by decide) rfl
        ⟨['d', 'o', 'g'], .easy, none⟩
        { wmEx with sessionWordIndices := fun d =>
            if d = .easy then some 1 else wmEx.sessionWordIndices d }
        rfl
    simp [hs]

/-- Counterexample for C6: the failure after `reset()` and the failure on
an empty configuration are not distinct — `getNextWord` throws the very
same error value in both situations. -/
theorem getNextWord_failures_identical :
    getNextWord (resetSession
        (initializeSessionWords ⟨[['c', 'a', 't']], [], []⟩ [] (fun _ => 0) 0 0)) .easy
      = Except.error (noWordsMsg .easy) ∧
    getNextWord (initializeSessionWords ⟨[], [], []⟩ [] (fun _ => 0) 0 0) .easy
      = Except.error (noWordsMsg .easy) := by
  constructor
  · rfl
  · have hempty : createWeightedShuffledList ⟨[], [], []⟩ .easy [] (fun _ => 0) 0 0 = ([], 0) := by
      simp [createWeightedShuffledList, sortedWordScores, scoredWords, wordsFor, chunks10,
        shuffleChunks]
    simp [getNextWord, initializeSessionWords, hempty]

/-- Claim C6 (amended: both failure modes — never initialized / after
`reset()`, and an empty word list — surface as the one "No words available"
error, not two distinct failures): `getNextWord` fails exactly when no
session list is available, otherwise returns the entry at the cursor and
advances the cursor cyclically, leaving the session lists untouched, so the
third call on a 2-word list returns the same word as the first. -/
theorem getNextWord_contract :
    (∀ s d, s.sessionWordLists d = none → getNextWord s d = .error (noWordsMsg d)) ∧
    (∀ s d, getNextWord (resetSession s) d = .error (noWordsMsg d)) ∧
    (∀ s d, s.sessionWordLists d = some [] → getNextWord s d = .error (noWordsMsg d)) ∧
    (∀ s d wl i, s.sessionWordLists d = some wl → (s.sessionWordIndices d).getD 0 = i →
      i < wl.length →
      getNextWord s d = .ok
        (⟨(parseWordEntry (wl.getD i [])).text, d, (parseWordEntry (wl.getD i [])).description⟩,
         { s with sessionWordIndices := fun d2 =>
             if d2 = d then some (i + 1) else s.sessionWordIndices d2 })) ∧
    (∀ s d wl i, s.sessionWordLists d = some wl → (s.sessionWordIndices d).getD 0 = i →
      wl.length ≤ i → wl ≠ [] →
      getNextWord s d = .ok
        (⟨(parseWordEntry (wl.getD 0 [])).text, d, (parseWordEntry (wl.getD 0 [])).description⟩,
         { s with sessionWordIndices := fun d2 =>
             if d2 = d then some 1 else s.sessionWordIndices d2 })) ∧
    (∀ s d a b, s.sessionWordLists d = some [a, b] → s.sessionWordIndices d = some 0 →
      ∃ w1 s1 w2 s2 w3 s3,
        getNextWord s d = .ok (w1, s1) ∧ getNextWord s1 d = .ok (w2, s2) ∧
        getNextWord s2 d = .ok (w3, s3) ∧ w3 = w1) := by
  have herr : ∀ s d, s.sessionWordLists d = none → getNextWord s d = .error (noWordsMsg d) := by
    intro s d h
    simp [getNextWord, h]
  have hempty : ∀ s d, s.sessionWordLists d = some [] →
      getNextWord s d = .error (noWordsMsg d) := by
    intro s d h
    simp [getNextWord, h]
  have hin : ∀ s d wl i, s.sessionWordLists d = some wl →
      (s.sessionWordIndices d).getD 0 = i → i < wl.length →
      getNextWord s d = .ok
        (⟨(parseWordEntry (wl.getD i [])).text, d, (parseWordEntry (wl.getD i [])).description⟩,
         { s with sessionWordIndices := fun d2 =>
             if d2 = d then some (i + 1) else s.sessionWordIndices d2 }) := by
    intro s d wl i h hi hlt
    simp only [getNextWord, h, hi]
    rw [if_neg (by omega), if_neg (by omega)]
  have hwrap : ∀ s d wl i, s.sessionWordLists d = some wl →
      (s.sessionWordIndices d).getD 0 = i → wl.length ≤ i → wl ≠ [] →
      getNextWord s d = .ok
        (⟨(parseWordEntry (wl.getD 0 [])).text, d, (parseWordEntry (wl.getD 0 [])).description⟩,
         { s with sessionWordIndices := fun d2 =>
             if d2 = d then some 1 else s.sessionWordIndices d2 }) := by
    intro s d wl i h hi hle hne
    have hlen : wl.length ≠ 0 := by
      intro hc
      exact hne (List.length_eq_zero.1 hc)
    simp only [getNextWord, h, hi]
    rw [if_neg hlen, if_pos hle]
  refine ⟨herr, ?_, hempty, hin, hwrap, ?_⟩
  · intro s d
    exact herr _ d rfl
  · intro s d a b h1 h2
    have e1 := hin s d [a, b] 0 h1 (by simp [h2]) (by simp)
    have e2 := hin
      { s with sessionWordIndices := fun d2 =>
          if d2 = d then some (0 + 1) else s.sessionWordIndices d2 }
      d [a, b] 1 h1 (by simp) (by simp)
    have e3 := hwrap
      { s with sessionWordIndices := fun d2 =>
          if d2 = d then some (1 + 1)
          else if d2 = d then some (0 + 1) else s.sessionWordIndices d2 }
      d [a, b] 2 h1 (by simp) (by simp) (by simp)
    exact ⟨_, _, _, _, _, _, e1, e2, e3, rfl⟩

/-- Witness for C6: the contract theorem applied to the concrete 2-word
scheduler state with the cursor at 0. -/
theorem getNextWord_contract_witness :
    getNextWord wmEx .easy = .ok (⟨['d', 'o', 'g'], .easy, none⟩,
      { wmEx with sessionWordIndices := fun d2 =>
          if d2 = .easy then some 1 else wmEx.sessionWordIndices d2 }) :=
  getNextWord_contract.2.2.2.1 wmEx .easy [['d', 'o', 'g'], ['c', 'a', 't']] 0
    rfl rfl (by decide)

/-- Claim C1: `calculatePriorityScore` returns 1000 when the snapshot has
no record under the lowercased word, and otherwise the exact penalty/bonus
formula of the specification; in particular the record with
`timesTimeout = 2, timesMistakes = 0, totalAttempts = 2`, all other
counters 0 and `lastSeen` within the last day scores exactly 350. -/
theorem calculatePriorityScore_matches_formula :
    (∀ word pm now, calculatePriorityScore word pm now = priorityScoreSpec word pm now) ∧
    calculatePriorityScore ['c', 'a', 't']
      [(['c', 'a', 't'], ⟨['c', 'a', 't'], 0, 0, 2, 2, 0⟩)] 0 = 350 := by
  constructor
  · intro word pm now
    unfold calculatePriorityScore priorityScoreSpec
    cases h : pm.lookup (lowerStr word) with
    | none => rfl
    | some perf =>
      simp only [h]
      norm_num
      split_ifs with h1 h2
      · rw [max_comm, min_comm]
        ring_nf
      · rw [max_comm, min_comm]
        ring_nf
      · rw [max_comm]
        ring_nf
      · rw [max_comm]
        ring_nf
  · have hl : List.lookup (lowerStr ['c', 'a', 't'])
        [(['c', 'a', 't'], (⟨['c', 'a', 't'], 0, 0, 2, 2, 0⟩ : WordPerformance))]
        = some ⟨['c', 'a', 't'], 0, 0, 2, 2, 0⟩ := rfl
    simp only [calculatePriorityScore, hl]
    norm_num

/-- Counterexample for C9: with `timesCorrectFirstTry = 4` (other counters
0, `totalAttempts` fixed at 4, seen just now) the score is already floored
at 0, and raising `timesCorrectFirstTry` to 5 leaves it at 0 — not a
strict decrease. -/
theorem priorityScore_not_strict_at_floor :
    calculatePriorityScore ['c', 'a', 't']
      [(['c', 'a', 't'], ⟨['c', 'a', 't'], 4, 0, 0, 4, 0⟩)] 0 = 0 ∧
    calculatePriorityScore ['c', 'a', 't']
      [(['c', 'a', 't'], ⟨['c', 'a', 't'], 5, 0, 0, 4, 0⟩)] 0 = 0 ∧
    ¬ (calculatePriorityScore ['c', 'a', 't']
        [(['c', 'a', 't'], ⟨['c', 'a', 't'], 5, 0, 0, 4, 0⟩)] 0
      < calculatePriorityScore ['c', 'a', 't']
        [(['c', 'a', 't'], ⟨['c', 'a', 't'], 4, 0, 0, 4, 0⟩)] 0) := by
  have h4 : calculatePriorityScore ['c', 'a', 't']
      [(['c', 'a', 't'], ⟨['c', 'a', 't'], 4, 0, 0, 4, 0⟩)] 0 = 0 := by
    have hl : List.lookup (lowerStr ['c', 'a', 't'])
        [(['c', 'a', 't'], (⟨['c', 'a', 't'], 4, 0, 0, 4, 0⟩ : WordPerformance))]
        = some ⟨['c', 'a', 't'], 4, 0, 0, 4, 0⟩ := rfl
    simp only [calculatePriorityScore, hl]
    norm_num
  have h5 : calculatePriorityScore ['c', 'a', 't']
      [(['c', 'a', 't'], ⟨['c', 'a', 't'], 5, 0, 0, 4, 0⟩)] 0 = 0 := by
    have hl : List.lookup (lowerStr ['c', 'a', 't'])
        [(['c', 'a', 't'], (⟨['c', 'a', 't'], 5, 0, 0, 4, 0⟩ : WordPerformance))]
        = some ⟨['c', 'a', 't'], 5, 0, 0, 4, 0⟩ := rfl
    simp only [calculatePriorityScore, hl]
    norm_num
  refine ⟨h4, h5, ?_⟩
  rw [h4, h5]
  exact lt_irrefl 0

/-- One step of the strict decrease survives the floor at 0 only while the
larger score is still positive. -/
theorem max_floor_step (e1 e0 : ℚ) (h : e1 ≤ e0 - 30) :
    max e1 0 ≤ max e0 0 ∧ (0 < max e0 0 → max e1 0 < max e0 0) ∧ 0 ≤ max e0 0 := by
  refine ⟨max_le_max (by linarith) le_rfl, ?_, le_max_right _ _⟩
  intro hp
  have he0 : 0 < e0 := by
    by_contra hno
    push_neg at hno
    rw [max_eq_right hno] at hp
    exact lt_irrefl 0 hp
  rw [max_eq_left he0.le]
  exact max_lt (by linarith) he0

/-- The un-floored score drops by at least 30 per extra first-try success:
the low-success-rate bonus can only switch off, and the recency bonus is
unchanged. -/
theorem score_if_step (base1 base0 D : ℚ) (p1 p0 dc : Prop)
    [Decidable p1] [Decidable p0] [Decidable dc]
    (hb : base1 = base0 - 30) (himp : p1 → p0) :
    (if dc then (if p1 then base1 + 50 else base1) + D
     else (if p1 then base1 + 50 else base1)) ≤
    (if dc then (if p0 then base0 + 50 else base0) + D
     else (if p0 then base0 + 50 else base0)) - 30 := by
  split_ifs with h1 h2 h3 <;>
    first
      | linarith
      | (exact absurd (himp (by assumption)) (by assumption))

/-- Claim C9 (amended: the score decreases strictly with each extra
first-try success only while it is still positive; at the floor it stays
0): holding the other counters and `lastSeen` fixed, one more
`timesCorrectFirstTry` never increases the score, decreases it strictly
whenever the current score is positive, and the score is never negative. -/
theorem priorityScore_monotone (w : Str) (now : ℤ) (perf1 perf2 : WordPerformance)
    (hstep : perf2 = { perf1 with timesCorrectFirstTry := perf1.timesCorrectFirstTry + 1 }) :
    calculatePriorityScore w [(lowerStr w, perf2)] now ≤
      calculatePriorityScore w [(lowerStr w, perf1)] now ∧
    (0 < calculatePriorityScore w [(lowerStr w, perf1)] now →
      calculatePriorityScore w [(lowerStr w, perf2)] now <
        calculatePriorityScore w [(lowerStr w, perf1)] now) ∧
    0 ≤ calculatePriorityScore w [(lowerStr w, perf1)] now := by
  subst hstep
  have hl : ∀ p : WordPerformance, List.lookup (lowerStr w) [(lowerStr w, p)] = some p := by
    intro p
    simp [List.lookup_cons]
  simp only [calculatePriorityScore, hl]
  have hApos : (0 : ℚ) < (perf1.totalAttempts : ℚ) ⊔ 1 :=
    lt_of_lt_of_le zero_lt_one (le_max_right _ _)
  apply max_floor_step
  apply score_if_step
  · push_cast
    ring
  · rintro ⟨hrate, hA⟩
    refine ⟨lt_of_le_of_lt ?_ hrate, hA⟩
    rw [div_le_div_iff_of_pos_right hApos]
    push_cast
    linarith

/-- Witness for C9: the monotonicity theorem applied to a fresh record
(score 100 > 0), whose score strictly drops when `timesCorrectFirstTry`
becomes 1. -/
theorem priorityScore_monotone_witness :
    calculatePriorityScore ['c', 'a', 't']
      [(lowerStr ['c', 'a', 't'], ⟨['c', 'a', 't'], 1, 0, 0, 0, 0⟩)] 0 <
    calculatePriorityScore ['c', 'a', 't']
      [(lowerStr ['c', 'a', 't'], ⟨['c', 'a', 't'], 0, 0, 0, 0, 0⟩)] 0 :=
  (priorityScore_monotone ['c', 'a', 't'] 0 ⟨['c', 'a', 't'], 0, 0, 0, 0, 0⟩
    ⟨['c', 'a', 't'], 1, 0, 0, 0, 0⟩ rfl).2.1 (by
      have hl : List.lookup (lowerStr ['c', 'a', 't'])
          [(lowerStr ['c', 'a', 't'], (⟨['c', 'a', 't'], 0, 0, 0, 0, 0⟩ : WordPerformance))]
          = some ⟨['c', 'a', 't'], 0, 0, 0, 0, 0⟩ := rfl
      simp only [calculatePriorityScore, hl]
      norm_num)

/-- When the separator fold returns nothing, the accumulator was empty and
no separator occurs in the entry. -/
theorem foldl_sep_none (entry : Str) :
    ∀ (seps : List Str) (acc : Option (ℕ × ℕ)),
      List.foldl (fun acc sep =>
        match indexOfSub sep entry with
        | none => acc
        | some i =>
          match acc with
          | none => some (i, sep.length)
          | some (bi, bl) => if i < bi then some (i, sep.length) else some (bi, bl))
        acc seps = none →
      acc = none ∧ ∀ sep ∈ seps, indexOfSub sep entry = none := by
  intro seps
  induction seps with
  | nil =>
    intro acc h
    exact ⟨h, by simp⟩
  | cons sep rest ih =>
    intro acc h
    rw [List.foldl_cons] at h
    obtain ⟨hacc2, hrest⟩ := ih _ h
    rcases hidx : indexOfSub sep entry with _ | is
    · rw [hidx] at hacc2
      refine ⟨hacc2, ?_⟩
      intro s hs
      rcases List.mem_cons.1 hs with rfl | hs2
      · exact hidx
      · exact hrest s hs2
    · rw [hidx] at hacc2
      exfalso
      rcases acc with _ | ⟨bi, bl⟩
      · exact Option.noConfusion hacc2
      · have : (if is < bi then some (is, sep.length) else some (bi, bl)) = none := hacc2
        split_ifs at this <;> exact Option.noConfusion this

/-- The separator fold returns a position held by one of the scanned
separators, no later than the accumulator and than every separator
occurrence: the earliest match wins. -/
theorem foldl_sep_some (entry : Str) :
    ∀ (seps : List Str) (acc : Option (ℕ × ℕ)) (i len : ℕ),
      List.foldl (fun acc sep =>
        match indexOfSub sep entry with
        | none => acc
        | some i =>
          match acc with
          | none => some (i, sep.length)
          | some (bi, bl) => if i < bi then some (i, sep.length) else some (bi, bl))
        acc seps = some (i, len) →
      (acc = some (i, len) ∨
        ∃ sep ∈ seps, indexOfSub sep entry = some i ∧ sep.length = len) ∧
      (∀ bi bl, acc = some (bi, bl) → i ≤ bi) ∧
      (∀ sep ∈ seps, ∀ j, indexOfSub sep entry = some j → i ≤ j) := by
  intro seps
  induction seps with
  | nil =>
    intro acc i len h
    refine ⟨Or.inl h, ?_, by simp⟩
    intro bi bl hbi
    rw [hbi] at h
    injection h with h2
    injection h2 with ha hb
    omega
  | cons sep rest ih =>
    intro acc i len h
    rw [List.foldl_cons] at h
    rcases hidx : indexOfSub sep entry with _ | is
    · simp only [hidx] at h
      obtain ⟨hmem, hbacc, hbrest⟩ := ih acc i len h
      refine ⟨?_, hbacc, ?_⟩
      · rcases hmem with hm | ⟨s, hs, ha, hb⟩
        · exact Or.inl hm
        · exact Or.inr ⟨s, List.mem_cons_of_mem _ hs, ha, hb⟩
      · intro s hs j hj
        rcases List.mem_cons.1 hs with rfl | hs2
        · rw [hidx] at hj; cases hj
        · exact hbrest s hs2 j hj
    · rcases hacc : acc with _ | ⟨bi, bl⟩ <;> subst hacc
      · simp only [hidx] at h
        obtain ⟨hmem, hbacc, hbrest⟩ := ih _ i len h
        have hile : i ≤ is := by
          have := hbacc is sep.length rfl
          omega
        refine ⟨?_, ?_, ?_⟩
        · rcases hmem with hm | ⟨s, hs, ha, hb⟩
          · injection hm with hm2
            injection hm2 with ha hb
            exact Or.inr ⟨sep, List.mem_cons_self _ _, by rw [hidx, ha], hb⟩
          · exact Or.inr ⟨s, List.mem_cons_of_mem _ hs, ha, hb⟩
        · intro bi bl hbi
          cases hbi
        · intro s hs j hj
          rcases List.mem_cons.1 hs with rfl | hs2
          · rw [hidx] at hj
            injection hj with hj2
            omega
          · exact hbrest s hs2 j hj
      · by_cases hlt : is < bi
        · simp only [hidx, if_pos hlt] at h
          obtain ⟨hmem, hbacc, hbrest⟩ := ih _ i len h
          have hile : i ≤ is := by
            have := hbacc is sep.length rfl
            omega
          refine ⟨?_, ?_, ?_⟩
          · rcases hmem with hm | ⟨s, hs, ha, hb⟩
            · injection hm with hm2
              injection hm2 with ha hb
              exact Or.inr ⟨sep, List.mem_cons_self _ _, by rw [hidx, ha], hb⟩
            · exact Or.inr ⟨s, List.mem_cons_of_mem _ hs, ha, hb⟩
          · intro bi2 bl2 hbi2
            injection hbi2 with hbi3
            injection hbi3 with ha hb
            omega
          · intro s hs j hj
            rcases List.mem_cons.1 hs with rfl | hs2
            · rw [hidx] at hj
              injection hj with hj2
              omega
            · exact hbrest s hs2 j hj
        · simp only [hidx, if_neg hlt] at h
          obtain ⟨hmem, hbacc, hbrest⟩ := ih _ i len h
          have hile : i ≤ bi := by
            have := hbacc bi bl rfl
            omega
          refine ⟨?_, ?_, ?_⟩
          · rcases hmem with hm | ⟨s, hs, ha, hb⟩
            · exact Or.inl hm
            · exact Or.inr ⟨s, List.mem_cons_of_mem _ hs, ha, hb⟩
          · intro bi2 bl2 hbi2
            injection hbi2 with hbi3
            injection hbi3 with ha hb
            omega
          · intro s hs j hj
            rcases List.mem_cons.1 hs with rfl | hs2
            · rw [hidx] at hj
              injection hj with hj2
              omega
            · exact hbrest s hs2 j hj

/-- `findSeparator` finds the earliest occurrence among the three dash
separators (and fails exactly when none occurs). -/
theorem findSeparator_spec (entry : Str) :
    (findSeparator entry = none → ∀ sep ∈ DESCRIPTION_SEPARATORS, indexOfSub sep entry = none) ∧
    (∀ i len, findSeparator entry = some (i, len) →
      (∃ sep ∈ DESCRIPTION_SEPARATORS, indexOfSub sep entry = some i ∧ sep.length = len) ∧
      (∀ sep ∈ DESCRIPTION_SEPARATORS, ∀ j, indexOfSub sep entry = some j → i ≤ j)) := by
  constructor
  · intro hf
    exact (foldl_sep_none entry DESCRIPTION_SEPARATORS none hf).2
  · intro i len hf
    obtain ⟨hmem, _, hbound⟩ := foldl_sep_some entry DESCRIPTION_SEPARATORS none i len hf
    refine ⟨?_, hbound⟩
    rcases hmem with hm | hm
    · cases hm
    · exact hm

/-- Claim C7: `parseWordEntry` splits at the earliest occurrence of any of
the three dash separators, returning the trimmed left segment as text and
the trimmed right segment as description; an empty left segment returns
the whole entry verbatim with no description, an empty right segment
leaves the description absent, and the three round-trip examples hold. -/
theorem parseWordEntry_spec :
    (∀ entry i len, findSeparator entry = some (i, len) →
      ((∃ sep ∈ DESCRIPTION_SEPARATORS, indexOfSub sep entry = some i ∧ sep.length = len) ∧
       (∀ sep ∈ DESCRIPTION_SEPARATORS, ∀ j, indexOfSub sep entry = some j → i ≤ j)) ∧
      parseWordEntry entry =
        (if trimStr (entry.take i) = [] then ⟨entry, none⟩
         else ⟨trimStr (entry.take i),
           if trimStr (entry.drop (i + len)) = [] then none
           else some (trimStr (entry.drop (i + len)))⟩)) ∧
    (∀ entry, findSeparator entry = none →
      (parseWordEntry entry = ⟨entry, none⟩ ∧
       ∀ sep ∈ DESCRIPTION_SEPARATORS, indexOfSub sep entry = none)) ∧
    parseWordEntry ("cat - a small furry pet".toList) =
      ⟨"cat".toList, some ("a small furry pet".toList)⟩ ∧
    parseWordEntry ("cat".toList) = ⟨"cat".toList, none⟩ ∧
    parseWordEntry (" - desc".toList) = ⟨" - desc".toList, none⟩ ∧
    parseWordEntry ("test – first — second - third".toList) =
      ⟨"test".toList, some ("first — second - third".toList)⟩ := by
  refine ⟨?_, ?_, by rfl, by rfl, by rfl, by rfl⟩
  · intro entry i len hf
    refine ⟨(findSeparator_spec entry).2 i len hf, ?_⟩
    simp only [parseWordEntry, hf]
  · intro entry hf
    refine ⟨?_, (findSeparator_spec entry).1 hf⟩
    simp only [parseWordEntry, hf]

/-- Witness for C7: the parse theorem applied to a concrete entry with a
separator (at index 3, length 3) and to one without. -/
theorem parseWordEntry_spec_witness :
    parseWordEntry ("cat - a small furry pet".toList) =
      ⟨"cat".toList, some ("a small furry pet".toList)⟩ ∧
    parseWordEntry ("cat".toList) = ⟨"cat".toList, none⟩ :=
  ⟨(parseWordEntry_spec.1 ("cat - a small furry pet".toList) 3 3 rfl).2,
   (parseWordEntry_spec.2.1 ("cat".toList) rfl).1⟩

/-- Writing an element back over position `i` is the identity. -/
theorem set_get_self {α : Type} : ∀ (l : List α) (i : ℕ) (hi : i < l.length),
    l.set i (l.get ⟨i, hi⟩) = l
  | _ :: _, 0, _ => rfl
  | b :: s, i + 1, hi => by
    simp only [List.set_cons_succ, List.get_cons_succ]
    rw [set_get_self s i (by simpa using hi)]

/-- Moving position `k` to the front while writing `a` into the hole is a
permutation of putting `a` in front. -/
theorem cons_set_perm {α : Type} : ∀ (t : List α) (k : ℕ) (hk : k < t.length) (a : α),
    List.Perm (t.get ⟨k, hk⟩ :: t.set k a) (a :: t)
  | b :: s, 0, _, a => List.Perm.swap a b s
  | b :: s, k + 1, hk, a => by
    simp only [List.set_cons_succ, List.get_cons_succ]
    exact ((List.Perm.swap b (s.get ⟨k, by simpa using hk⟩) (s.set k a)).trans
      (List.Perm.cons b (cons_set_perm s k (by simpa using hk) a))).trans
      (List.Perm.swap a b s)

/-- Exchanging two positions by a pair of writes permutes the list. -/
theorem set_set_swap_perm {α : Type} : ∀ (l : List α) (i j : ℕ)
    (hi : i < l.length) (hj : j < l.length), i < j →
    List.Perm ((l.set i (l.get ⟨j, hj⟩)).set j (l.get ⟨i, hi⟩)) l
  | b :: s, 0, j + 1, hi, hj, _ => by
    simp only [List.set_cons_zero, List.get_cons_succ, List.get_cons_zero,
      List.set_cons_succ]
    exact cons_set_perm s j (by simpa using hj) b
  | b :: s, i + 1, j + 1, hi, hj, hij => by
    simp only [List.set_cons_succ, List.get_cons_succ]
    exact List.Perm.cons b
      (set_set_swap_perm s i j (by simpa using hi) (by simpa using hj) (by omega))

/-- The destructuring swap of the Fisher–Yates loop permutes the list. -/
theorem jsSwap_perm {α : Type} (l : List α) (i j : ℕ) : List.Perm (jsSwap l i j) l := by
  unfold jsSwap
  split
  · rename_i h
    obtain ⟨hi, hj⟩ := h
    rcases lt_trichotomy i j with hij | hij | hij
    · exact set_set_swap_perm l i j hi hj hij
    · subst hij
      rw [set_get_self, set_get_self]
    · rw [List.set_comm _ _ _ (by omega)]
      exact set_set_swap_perm l j i hj hi hij
  · exact List.Perm.refl l

/-- Every outcome of the Fisher–Yates loop is a permutation of its input. -/
theorem shuffleAux_perm {α : Type} (f : ℕ → ℕ) :
    ∀ (i : ℕ) (l : List α) (k : ℕ), List.Perm (shuffleAux f i l k).1 l
  | 0, l, _ => List.Perm.refl l
  | i + 1, l, k =>
    (shuffleAux_perm f i (jsSwap l (i + 1) (f k % (i + 2))) (k + 1)).trans
      (jsSwap_perm l (i + 1) (f k % (i + 2)))

/-- `shuffleArray` only permutes. -/
theorem shuffleArray_perm {α : Type} (f : ℕ → ℕ) (l : List α) (k : ℕ) :
    List.Perm (shuffleArray f l k).1 l :=
  shuffleAux_perm f (l.length - 1) l k

/-- Shuffling bucket by bucket permutes each bucket in place. -/
theorem shuffleChunks_forall₂ {α : Type} (f : ℕ → ℕ) :
    ∀ (bs : List (List α)) (k : ℕ),
      List.Forall₂ List.Perm (shuffleChunks f bs k).1 bs
  | [], _ => List.Forall₂.nil
  | b :: bs, k => by
    simp only [shuffleChunks]
    exact List.Forall₂.cons (shuffleArray_perm f b k)
      (shuffleChunks_forall₂ f bs (shuffleArray f b k).2)

/-- The buckets of 10 partition the sorted list. -/
theorem chunks10_flatten {α : Type} : ∀ (l : List α), (chunks10 l).flatten = l := by
  intro l
  induction l using chunks10.induct with
  | case1 => simp [chunks10]
  | case2 a t ih =>
    rw [chunks10]
    simp only [List.flatten_cons, ih]
    have hd : t.drop 9 = (a :: t).drop 10 := rfl
    rw [hd, List.take_append_drop]

/-- Claim C3: for every configuration, snapshot and shuffle outcome,
`createWeightedShuffledList` concatenates the contiguous buckets of 10 of
the descending priority sort, each bucket independently permuted by the
shuffle — so the session order is a permutation of the configured entries
in which an entry of an earlier bucket appears before every entry of a
later one. -/
theorem createWeightedShuffledList_buckets (cfg : WordConfig) (d : Difficulty)
    (pm : WordPerformanceMap) (f : ℕ → ℕ) (k : ℕ) (now : ℤ) :
    (createWeightedShuffledList cfg d pm f k now).1 =
      ((shuffleChunks f (chunks10 (sortedWordScores (wordsFor cfg d) pm now)) k).1.map
        (fun bucket => bucket.map Prod.fst)).flatten ∧
    List.Forall₂ List.Perm
      (shuffleChunks f (chunks10 (sortedWordScores (wordsFor cfg d) pm now)) k).1
      (chunks10 (sortedWordScores (wordsFor cfg d) pm now)) ∧
    (chunks10 (sortedWordScores (wordsFor cfg d) pm now)).flatten =
      sortedWordScores (wordsFor cfg d) pm now ∧
    List.Perm (createWeightedShuffledList cfg d pm f k now).1 (wordsFor cfg d) := by
  refine ⟨rfl, shuffleChunks_forall₂ f _ k, chunks10_flatten _, ?_⟩
  have h2 := shuffleChunks_forall₂ f (chunks10 (sortedWordScores (wordsFor cfg d) pm now)) k
  have hmap : List.Forall₂ List.Perm
      ((shuffleChunks f (chunks10 (sortedWordScores (wordsFor cfg d) pm now)) k).1.map
        (fun bucket => bucket.map Prod.fst))
      ((chunks10 (sortedWordScores (wordsFor cfg d) pm now)).map
        (fun bucket => bucket.map Prod.fst)) := by
    rw [List.forall₂_map_left_iff, List.forall₂_map_right_iff]
    exact h2.imp (fun _ _ h => h.map Prod.fst)
  have hflat := List.Perm.flatten_congr hmap
  have hchunks : ((chunks10 (sortedWordScores (wordsFor cfg d) pm now)).map
      (fun bucket => bucket.map Prod.fst)).flatten =
      (sortedWordScores (wordsFor cfg d) pm now).map Prod.fst := by
    rw [← List.map_flatten, chunks10_flatten]
  have hsort : List.Perm ((sortedWordScores (wordsFor cfg d) pm now).map Prod.fst)
      ((scoredWords (wordsFor cfg d) pm now).map Prod.fst) :=
    (List.mergeSort_perm _ _).map Prod.fst
  have hfst : (scoredWords (wordsFor cfg d) pm now).map Prod.fst = wordsFor cfg d := by
    simp [scoredWords, List.map_map, Function.comp_def]
  rw [hchunks] at hflat
  have hlast : List.Perm ((scoredWords (wordsFor cfg d) pm now).map Prod.fst)
      (wordsFor cfg d) := by
    rw [hfst]
  exact (hflat.trans hsort).trans hlast

end Spelling
